import Mathlib

/-
Verification of the ARIMAX forecasting core of the parasite-estimation
dashboard (src/pages/2_forecast.py), as a shallow embedding in Lean.

Real-valued quantities of the program (AIC scores, predicted means,
confidence bounds, temperatures, humidities) are modelled by rationals;
dates are modelled by natural-number day indices.
-/

namespace ParasiteForecast

/-! ## Integer projection of the forecast

Source (src/pages/2_forecast.py, main, lines 127-134):
  y_hat_raw = float(fc.predicted_mean.iloc[0])
  conf = fc.conf_int(alpha=0.05).iloc[0]
  lower_raw = float(min(conf[0], conf[1]))
  upper_raw = float(max(conf[0], conf[1]))
  y_hat = max(0, int(round(y_hat_raw)))
  lower = max(0, int(round(lower_raw)))
  upper = max(0, int(round(upper_raw)))

Python's built-in `round` on a float rounds half-integers to the nearest
even integer (banker's rounding); `pyRound` embeds it over ℚ. -/

def pyRound (x : ℚ) : ℤ :=
  if x - (x.floor : ℚ) < 1/2 then x.floor
  else if 1/2 < x - (x.floor : ℚ) then x.floor + 1
  else if x.floor % 2 = 0 then x.floor else x.floor + 1

lemma pyRound_eq_floor (x : ℚ) :
    pyRound x =
      if x - (⌊x⌋ : ℚ) < 1/2 then ⌊x⌋
      else if 1/2 < x - (⌊x⌋ : ℚ) then ⌊x⌋ + 1
      else if ⌊x⌋ % 2 = 0 then ⌊x⌋ else ⌊x⌋ + 1 := by
  have h : x.floor = ⌊x⌋ := (Rat.floor_def' x).trans (@Rat.floor_def x).symm
  simp only [pyRound, h]

/-- The code's projection: reorder the two raw bounds as (min, max) first,
then round each, then clamp each at zero. Returns (point, lower, upper). -/
def forecast_ints (y_hat_raw conf0 conf1 : ℚ) : ℤ × ℤ × ℤ :=
  (max 0 (pyRound y_hat_raw),
   max 0 (pyRound (min conf0 conf1)),
   max 0 (pyRound (max conf0 conf1)))

/-- Modelled from the spec's stated order of operations (§4.4): round the
predicted mean and each raw bound to the nearest integer, then clamp each
at zero, then re-derive (lower, upper) as (min, max) of the two projected
bounds. To be compared with `forecast_ints`, the code's computation. -/
def spec_round_clamp_reorder (y_hat_raw conf0 conf1 : ℚ) : ℤ × ℤ × ℤ :=
  (max 0 (pyRound y_hat_raw),
   min (max 0 (pyRound conf0)) (max 0 (pyRound conf1)),
   max (max 0 (pyRound conf0)) (max 0 (pyRound conf1)))

lemma pyRound_bounds (x : ℚ) : ⌊x⌋ ≤ pyRound x ∧ pyRound x ≤ ⌊x⌋ + 1 := by
  rw [pyRound_eq_floor]
  split_ifs <;> omega

lemma pyRound_mono {x y : ℚ} (h : x ≤ y) : pyRound x ≤ pyRound y := by
  have hf : ⌊x⌋ ≤ ⌊y⌋ := Int.floor_le_floor h
  rcases eq_or_lt_of_le hf with heq | hlt
  · have hxy : x - (⌊x⌋ : ℚ) ≤ y - (⌊x⌋ : ℚ) := by linarith
    rw [pyRound_eq_floor, pyRound_eq_floor, ← heq]
    split_ifs <;> first | omega | linarith
  · have h1 := (pyRound_bounds x).2
    have h2 := (pyRound_bounds y).1
    omega

lemma pyRound_min (a b : ℚ) : pyRound (min a b) = min (pyRound a) (pyRound b) := by
  rcases le_total a b with h | h
  · rw [min_eq_left h, min_eq_left (pyRound_mono h)]
  · rw [min_eq_right h, min_eq_right (pyRound_mono h)]

lemma pyRound_max (a b : ℚ) : pyRound (max a b) = max (pyRound a) (pyRound b) := by
  rcases le_total a b with h | h
  · rw [max_eq_right h, max_eq_right (pyRound_mono h)]
  · rw [max_eq_left h, max_eq_left (pyRound_mono h)]

/-! ## Order search (auto_arimax)

Source (src/pages/2_forecast.py, lines 29-46):
  p_vals, d_vals, q_vals = range(4), (0, 1), range(4)
  best = (None, np.inf, None)
  for p in p_vals:
    for d in d_vals:
      for q in q_vals:
        try:
          m = SARIMAX(y, exog=ex, order=(p, d, q), ...)
          r = m.fit(disp=False)
          if r.aic < best[1]:
            best = ((p, d, q), r.aic, r)
        except Exception:
          continue
  return best

The SARIMAX fit is external to the repository: it is modelled by an
oracle `fit : Cand → Option ℚ` giving the AIC of a successful fit, or
`none` when fitting raises. `best = (None, np.inf, None)` with the strict
comparison `r.aic < best[1]` is modelled by an `Option` accumulator that
any first successful fit replaces. -/

abbrev Cand := Nat × Nat × Nat

/-- Enumeration order of the source's nested loops: p outer over range(4),
d middle over (0, 1), q inner over range(4), each ascending. -/
def candidates : List Cand :=
  (List.range 4).flatMap fun p =>
    ([0, 1] : List Nat).flatMap fun d =>
      (List.range 4).map fun q => (p, d, q)

/-- One iteration of the search loop body. -/
def stepBest (fit : Cand → Option ℚ) (best : Option (Cand × ℚ)) (c : Cand) :
    Option (Cand × ℚ) :=
  match fit c, best with
  | none, b => b
  | some a, none => some (c, a)
  | some a, some ba => if a < ba.2 then some (c, a) else some ba

def searchList (fit : Cand → Option ℚ) (cs : List Cand) : Option (Cand × ℚ) :=
  cs.foldl (stepBest fit) none

def auto_arimax (fit : Cand → Option ℚ) : Option (Cand × ℚ) :=
  searchList fit candidates

lemma stepBest_none_iff (fit : Cand → Option ℚ) (best : Option (Cand × ℚ))
    (c : Cand) : stepBest fit best c = none ↔ best = none ∧ fit c = none := by
  cases hfc : fit c <;> cases best <;> simp [stepBest, hfc]
  split <;> simp

lemma foldl_stepBest_none_iff (fit : Cand → Option ℚ) :
    ∀ (cs : List Cand) (acc : Option (Cand × ℚ)),
      cs.foldl (stepBest fit) acc = none ↔
        acc = none ∧ ∀ c ∈ cs, fit c = none := by
  intro cs
  induction cs with
  | nil => simp
  | cons c cs ih =>
    intro acc
    rw [List.foldl_cons, ih, stepBest_none_iff]
    constructor
    · rintro ⟨⟨h1, h2⟩, h3⟩
      exact ⟨h1, by simpa [h2] using h3⟩
    · rintro ⟨h1, h2⟩
      exact ⟨⟨h1, h2 c (by simp)⟩, fun c' hc' => h2 c' (by simp [hc'])⟩

/-- Fold invariant of the search loop: a `some` result is minimal over the
scanned list, and either is the untouched accumulator or came from the
first list element achieving a score strictly below the accumulator's and
strictly below every earlier successful element's. -/
lemma foldl_stepBest_spec (fit : Cand → Option ℚ) :
    ∀ (cs : List Cand) (acc : Option (Cand × ℚ)) (c : Cand) (a : ℚ),
      cs.foldl (stepBest fit) acc = some (c, a) →
      ((∀ c' ∈ cs, ∀ a', fit c' = some a' → a ≤ a') ∧
        (acc = some (c, a) ∨
          (fit c = some a ∧ ∃ l₁ l₂, cs = l₁ ++ c :: l₂ ∧
            (∀ b, acc = some b → a < b.2) ∧
            (∀ c' ∈ l₁, ∀ a', fit c' = some a' → a < a')))) := by
  intro cs
  induction cs with
  | nil =>
    intro acc c a h
    simp only [List.foldl_nil] at h
    exact ⟨by simp, Or.inl h⟩
  | cons c₀ cs ih =>
    intro acc c a h
    rw [List.foldl_cons] at h
    obtain ⟨hmin, hdisj⟩ := ih (stepBest fit acc c₀) c a h
    cases hfc : fit c₀ with
    | none =>
      have hstep : stepBest fit acc c₀ = acc := by simp [stepBest, hfc]
      rw [hstep] at hdisj
      refine ⟨?_, ?_⟩
      · intro c' hc' a' ha'
        rcases List.mem_cons.mp hc' with rfl | hc'
        · rw [hfc] at ha'; exact absurd ha' (by simp)
        · exact hmin c' hc' a' ha'
      · rcases hdisj with hacc | ⟨hfit, l₁, l₂, hcs, hacc, hstrict⟩
        · exact Or.inl hacc
        · refine Or.inr ⟨hfit, c₀ :: l₁, l₂, by simp [hcs], hacc, ?_⟩
          intro c' hc' a' ha'
          rcases List.mem_cons.mp hc' with rfl | hc'
          · rw [hfc] at ha'; exact absurd ha' (by simp)
          · exact hstrict c' hc' a' ha'
    | some a₀ =>
      cases acc with
      | none =>
        have hstep : stepBest fit (none : Option (Cand × ℚ)) c₀ = some (c₀, a₀) := by
          simp [stepBest, hfc]
        rw [hstep] at hdisj
        rcases hdisj with hacc | ⟨hfit, l₁, l₂, hcs, hacc, hstrict⟩
        · simp only [Option.some.injEq, Prod.mk.injEq] at hacc
          obtain ⟨rfl, rfl⟩ := hacc
          refine ⟨?_, Or.inr ⟨hfc, [], cs, rfl, by simp, by simp⟩⟩
          intro c' hc' a' ha'
          rcases List.mem_cons.mp hc' with rfl | hc'
          · rw [hfc, Option.some.injEq] at ha'
            linarith [ha']
          · exact hmin c' hc' a' ha'
        · have haa₀ : a < a₀ := hacc (c₀, a₀) rfl
          refine ⟨?_, Or.inr ⟨hfit, c₀ :: l₁, l₂, by simp [hcs], by simp, ?_⟩⟩
          · intro c' hc' a' ha'
            rcases List.mem_cons.mp hc' with rfl | hc'
            · rw [hfc, Option.some.injEq] at ha'
              linarith [ha']
            · exact hmin c' hc' a' ha'
          · intro c' hc' a' ha'
            rcases List.mem_cons.mp hc' with rfl | hc'
            · rw [hfc, Option.some.injEq] at ha'
              linarith [ha']
            · exact hstrict c' hc' a' ha'
      | some bb =>
        by_cases hlt : a₀ < bb.2
        · have hstep : stepBest fit (some bb) c₀ = some (c₀, a₀) := by
            simp [stepBest, hfc, hlt]
          rw [hstep] at hdisj
          rcases hdisj with hacc | ⟨hfit, l₁, l₂, hcs, hacc, hstrict⟩
          · simp only [Option.some.injEq, Prod.mk.injEq] at hacc
            obtain ⟨rfl, rfl⟩ := hacc
            refine ⟨?_, Or.inr ⟨hfc, [], cs, rfl, ?_, by simp⟩⟩
            · intro c' hc' a' ha'
              rcases List.mem_cons.mp hc' with rfl | hc'
              · rw [hfc, Option.some.injEq] at ha'
                linarith [ha']
              · exact hmin c' hc' a' ha'
            · intro b hb
              obtain rfl : bb = b := by simpa using hb
              exact hlt
          · have haa₀ : a < a₀ := hacc (c₀, a₀) rfl
            refine ⟨?_, Or.inr ⟨hfit, c₀ :: l₁, l₂, by simp [hcs], ?_, ?_⟩⟩
            · intro c' hc' a' ha'
              rcases List.mem_cons.mp hc' with rfl | hc'
              · rw [hfc, Option.some.injEq] at ha'
                linarith [ha']
              · exact hmin c' hc' a' ha'
            · intro b hb
              obtain rfl : bb = b := by simpa using hb
              exact lt_trans haa₀ hlt
            · intro c' hc' a' ha'
              rcases List.mem_cons.mp hc' with rfl | hc'
              · rw [hfc, Option.some.injEq] at ha'
                linarith [ha']
              · exact hstrict c' hc' a' ha'
        · have hstep : stepBest fit (some bb) c₀ = some bb := by
            simp [stepBest, hfc, hlt]
          rw [hstep] at hdisj
          rcases hdisj with hacc | ⟨hfit, l₁, l₂, hcs, hacc, hstrict⟩
          · have hbb : bb = (c, a) := by
              simpa using hacc
            refine ⟨?_, Or.inl (by rw [hbb])⟩
            intro c' hc' a' ha'
            rcases List.mem_cons.mp hc' with rfl | hc'
            · rw [hfc, Option.some.injEq] at ha'
              have hab : a = bb.2 := by rw [hbb]
              have hba : bb.2 ≤ a₀ := le_of_not_lt hlt
              linarith [ha']
            · exact hmin c' hc' a' ha'
          · have habb : a < bb.2 := hacc bb rfl
            have hba : bb.2 ≤ a₀ := le_of_not_lt hlt
            refine ⟨?_, Or.inr ⟨hfit, c₀ :: l₁, l₂, by simp [hcs], ?_, ?_⟩⟩
            · intro c' hc' a' ha'
              rcases List.mem_cons.mp hc' with rfl | hc'
              · rw [hfc, Option.some.injEq] at ha'
                linarith [ha']
              · exact hmin c' hc' a' ha'
            · intro b hb
              obtain rfl : bb = b := by simpa using hb
              exact habb
            · intro c' hc' a' ha'
              rcases List.mem_cons.mp hc' with rfl | hc'
              · rw [hfc, Option.some.injEq] at ha'
                linarith [ha']
              · exact hstrict c' hc' a' ha'

/-- Skipping: a candidate whose fit raises contributes nothing to the fold,
exactly as if it were filtered out of the grid. -/
lemma foldl_stepBest_filter_skip (fit : Cand → Option ℚ) (c₀ : Cand)
    (h : fit c₀ = none) :
    ∀ (cs : List Cand) (acc : Option (Cand × ℚ)),
      (cs.filter fun c => decide (c ≠ c₀)).foldl (stepBest fit) acc =
        cs.foldl (stepBest fit) acc := by
  intro cs
  induction cs with
  | nil => simp
  | cons c cs ih =>
    intro acc
    by_cases hc : c = c₀
    · subst hc
      have hstep : stepBest fit acc c = acc := by simp [stepBest, h]
      have hfil : (c :: cs).filter (fun x => decide (x ≠ c)) =
          cs.filter fun x => decide (x ≠ c) := by
        simp [List.filter_cons]
      rw [hfil, ih, List.foldl_cons, hstep]
    · have hfil : (c :: cs).filter (fun x => decide (x ≠ c₀)) =
          c :: cs.filter fun x => decide (x ≠ c₀) := by
        simp [List.filter_cons, hc]
      rw [hfil, List.foldl_cons, List.foldl_cons, ih]

lemma mem_candidates_iff (c : Cand) :
    c ∈ candidates ↔ c.1 ≤ 3 ∧ c.2.1 ≤ 1 ∧ c.2.2 ≤ 3 := by
  obtain ⟨p, d, q⟩ := c
  simp only [candidates, List.mem_flatMap, List.mem_range, List.mem_map,
    List.mem_cons, List.not_mem_nil, or_false]
  constructor
  · rintro ⟨p', hp', d', hd', q', hq', heq⟩
    simp only [Prod.mk.injEq] at heq
    obtain ⟨rfl, rfl, rfl⟩ := heq
    omega
  · rintro ⟨hp, hd, hq⟩
    exact ⟨p, by omega, d, by omega, q, by omega, rfl⟩

/-! ## Interpretation of the selected order (dynamic_pdq_interpretation)

Source (src/pages/2_forecast.py, lines 48-77). Each distinct message
string is embedded as a constructor. The source's guards are
  if d == 0 and adf_p is not None: (branch on adf_p < 0.05)
  elif d >= 1 and adf_p is not None: (branch on adf_p >= 0.05)
  else: generic-stability message
With d a natural number, d == 0 or d >= 1 always holds, so the final
else fires exactly when adf_p is None. -/

inductive InterpMsg
  | dAlreadyStationary
  | dHandledByArmaExog
  | dDifferencingApplied (d : Nat)
  | dPrefersDifferencing (d : Nat)
  | dGenericStability (d : Nat)
  | pLimitedPast
  | pModerateMemory (p : Nat)
  | pDeeperMemory (p : Nat)
  | qUnstructuredNoise
  | qShortTermShocks (q : Nat)
  | qComplexStructure (q : Nat)
  deriving DecidableEq

def dynamic_pdq_interpretation (p d q : Nat) (adf_p : Option ℚ) :
    List InterpMsg :=
  let dmsg : InterpMsg :=
    match adf_p with
    | none => .dGenericStability d
    | some ap =>
      if d = 0 then
        if ap < 1/20 then .dAlreadyStationary else .dHandledByArmaExog
      else
        if 1/20 ≤ ap then .dDifferencingApplied d else .dPrefersDifferencing d
  let pmsg : InterpMsg :=
    if p = 0 then .pLimitedPast
    else if p = 1 ∨ p = 2 then .pModerateMemory p
    else .pDeeperMemory p
  let qmsg : InterpMsg :=
    if q = 0 then .qUnstructuredNoise
    else if q = 1 ∨ q = 2 then .qShortTermShocks q
    else .qComplexStructure q
  [dmsg, pmsg, qmsg]

/-! ## Fit-quality notes (gentle_fidelity_notes)

Source (src/pages/2_forecast.py, lines 79-96):
  if y_std is None or y_std == 0 or np.isnan(y_std):
    return ["low natural variability ..."]
  ratio = rmse / y_std
  if ratio < 0.5: "contained"
  elif ratio < 1.0: "in line"
  else: "exceed"
  plus a closing suggestion message.
A float y_std that is None or NaN is modelled by `none`. -/

inductive FidelityMsg
  | lowVariability
  | contained
  | inLine
  | exceeds
  | suggestion
  deriving DecidableEq

def gentle_fidelity_notes (rmse : ℚ) (y_std : Option ℚ) : List FidelityMsg :=
  match y_std with
  | none => [.lowVariability]
  | some s =>
    if s = 0 then [.lowVariability]
    else if rmse / s < 1/2 then [.contained, .suggestion]
    else if rmse / s < 1 then [.inLine, .suggestion]
    else [.exceeds, .suggestion]

/-! ## Series preparation (load_cicalino_data)

Source (src/pages/2_forecast.py, lines 10-27):
  df["Date"] = pd.to_datetime(df["Date"], errors="coerce")
  for c in [...]: df[c] = pd.to_numeric(df[c], errors="coerce")
  df = df.dropna(subset=[the four columns])
  df = df.sort_values("Date").set_index("Date").asfreq("D")
  df[cols] = df[cols].interpolate(limit_direction="both")
  y = captures column; ex = temperature/humidity columns

Dates are modelled as day numbers (Nat); a cell that failed to parse is
`none`. `asfreq("D")` reindexes the sorted frame to the full daily
calendar from the earliest to the latest surviving date; it RAISES when
the date index has duplicates (pandas cannot reindex a non-unique index),
which the embedding models by returning `none` for the whole load.
After reindexing the values live at their own days, so sorting beforehand
is semantically inert here and the embedding looks values up by day.
`interpolate(limit_direction="both")` fills a day between two known days
linearly (the index is equally spaced, so positional linear interpolation
coincides with interpolation in the day coordinate) and fills a day
before the first / after the last known day with that nearest value. -/

structure RawRow where
  date : Option Nat
  temperature_mean : Option ℚ
  relativehumidity_mean : Option ℚ
  adult_males : Option ℚ
  deriving DecidableEq

/-- Rows surviving dropna: all four fields parsed. -/
def cleanRows (rows : List RawRow) : List (Nat × ℚ × ℚ × ℚ) :=
  rows.filterMap fun r =>
    match r.date, r.temperature_mean, r.relativehumidity_mean, r.adult_males with
    | some d, some t, some h, some m => some (d, t, h, m)
    | _, _, _, _ => none

/-- Best element of a list under a strict preference test, first wins ties. -/
def bestBy (better : Nat × ℚ → Nat × ℚ → Bool) (l : List (Nat × ℚ)) :
    Option (Nat × ℚ) :=
  l.foldl
    (fun acc kv =>
      match acc with
      | none => some kv
      | some b => if better kv b then some kv else some b)
    none

/-- Latest known observation at or before day t. -/
def prevKnown (known : List (Nat × ℚ)) (t : Nat) : Option (Nat × ℚ) :=
  bestBy (fun kv b => decide (b.1 < kv.1)) (known.filter fun kv => decide (kv.1 ≤ t))

/-- Earliest known observation at or after day t. -/
def nextKnown (known : List (Nat × ℚ)) (t : Nat) : Option (Nat × ℚ) :=
  bestBy (fun kv b => decide (kv.1 < b.1)) (known.filter fun kv => decide (t ≤ kv.1))

/-- Value of one column at day t after interpolate(limit_direction="both"). -/
def interp_col (known : List (Nat × ℚ)) (t : Nat) : Option ℚ :=
  match prevKnown known t, nextKnown known t with
  | some p0, some p1 =>
    if p1.1 = p0.1 then some p0.2
    else some (p0.2 + (p1.2 - p0.2) * ((t : ℚ) - (p0.1 : ℚ)) / ((p1.1 : ℚ) - (p0.1 : ℚ)))
  | some p0, none => some p0.2
  | none, some p1 => some p1.2
  | none, none => none

structure Prepared where
  index : List Nat
  captures : List (Option ℚ)
  temperature : List (Option ℚ)
  humidity : List (Option ℚ)
  deriving DecidableEq

/-- The daily calendar day0, day0+1, ..., day0+n-1. -/
def dayRange (day0 n : Nat) : List Nat := List.range' day0 n

/-- The prepared frame for a non-empty duplicate-free cleaned table:
reindex to the daily calendar from the earliest to the latest date and
interpolate each of the three columns over it. -/
def preparedOf (c : Nat × ℚ × ℚ × ℚ) (cs : List (Nat × ℚ × ℚ × ℚ)) : Prepared :=
  let cl := c :: cs
  let dmin := (cs.map fun r => r.1).foldl min c.1
  let dmax := (cs.map fun r => r.1).foldl max c.1
  let idx := dayRange dmin (dmax + 1 - dmin)
  ⟨idx,
   idx.map (interp_col (cl.map fun r => (r.1, r.2.2.2))),
   idx.map (interp_col (cl.map fun r => (r.1, r.2.1))),
   idx.map (interp_col (cl.map fun r => (r.1, r.2.2.1)))⟩

def load_cicalino_data (rows : List RawRow) : Option Prepared :=
  if ((cleanRows rows).map fun r => r.1).Nodup then
    match cleanRows rows with
    | [] => some ⟨[], [], [], []⟩
    | c :: cs => some (preparedOf c cs)
  else none

lemma bestBy_foldl_some (better : Nat × ℚ → Nat × ℚ → Bool) :
    ∀ (l : List (Nat × ℚ)) (b : Nat × ℚ),
      (l.foldl
        (fun acc kv =>
          match acc with
          | none => some kv
          | some b => if better kv b then some kv else some b)
        (some b)).isSome := by
  intro l
  induction l with
  | nil => intro b; simp
  | cons kv l ih =>
    intro b
    rw [List.foldl_cons]
    by_cases hb : better kv b
    · simpa [hb] using ih kv
    · simpa [hb] using ih b

lemma bestBy_isSome (better : Nat × ℚ → Nat × ℚ → Bool)
    (l : List (Nat × ℚ)) (h : l ≠ []) : (bestBy better l).isSome := by
  match l with
  | [] => exact absurd rfl h
  | kv :: l => simpa [bestBy] using bestBy_foldl_some better l kv

lemma interp_col_isSome (known : List (Nat × ℚ)) (h : known ≠ []) (t : Nat) :
    (interp_col known t).isSome := by
  obtain ⟨k, ks, rfl⟩ : ∃ k ks, known = k :: ks := by
    cases known with
    | nil => exact absurd rfl h
    | cons k ks => exact ⟨k, ks, rfl⟩
  by_cases hk : k.1 ≤ t
  · have hne : (k :: ks).filter (fun kv => decide (kv.1 ≤ t)) ≠ [] := by
      simp [List.filter_cons, hk]
    have hp := bestBy_isSome (fun kv b => decide (b.1 < kv.1)) _ hne
    rw [Option.isSome_iff_exists] at hp
    obtain ⟨p0, hp0⟩ := hp
    unfold interp_col
    rw [show prevKnown (k :: ks) t = some p0 from hp0]
    cases hn : nextKnown (k :: ks) t with
    | none => simp
    | some p1 => by_cases he : p1.1 = p0.1 <;> simp [he]
  · have hk' : t ≤ k.1 := le_of_not_le hk
    have hne : (k :: ks).filter (fun kv => decide (t ≤ kv.1)) ≠ [] := by
      simp [List.filter_cons, hk']
    have hn := bestBy_isSome (fun kv b => decide (kv.1 < b.1)) _ hne
    rw [Option.isSome_iff_exists] at hn
    obtain ⟨p1, hp1⟩ := hn
    unfold interp_col
    rw [show nextKnown (k :: ks) t = some p1 from hp1]
    cases hp : prevKnown (k :: ks) t with
    | none => simp
    | some p0 => by_cases he : p1.1 = p0.1 <;> simp [he]

lemma chain'_succ_range' : ∀ (n s : Nat),
    List.Chain' (fun a b => b = a + 1) (List.range' s n) := by
  intro n
  induction n with
  | zero => intro s; simp [List.range']
  | succ n ih =>
    intro s
    cases n with
    | zero => simp [List.range']
    | succ m =>
      rw [List.range'_succ]
      rw [List.range'_succ] at *
      exact List.Chain'.cons rfl (by simpa [List.range'_succ] using ih (s + 1))

lemma preparedOf_spec (c : Nat × ℚ × ℚ × ℚ) (cs : List (Nat × ℚ × ℚ × ℚ)) :
    List.Chain' (fun a b => b = a + 1) (preparedOf c cs).index ∧
    ((preparedOf c cs).captures.length = (preparedOf c cs).index.length ∧
      (preparedOf c cs).temperature.length = (preparedOf c cs).index.length ∧
      (preparedOf c cs).humidity.length = (preparedOf c cs).index.length) ∧
    ((∀ v ∈ (preparedOf c cs).captures, v.isSome) ∧
      (∀ v ∈ (preparedOf c cs).temperature, v.isSome) ∧
      (∀ v ∈ (preparedOf c cs).humidity, v.isSome)) := by
  refine ⟨chain'_succ_range' _ _, ⟨List.length_map _ _, List.length_map _ _,
    List.length_map _ _⟩, ?_, ?_, ?_⟩ <;>
  · intro v hv
    obtain ⟨t, _, rfl⟩ := List.mem_map.mp hv
    exact interp_col_isSome _ (by simp) t

/-! ## Forecast pipeline (main)

Source (src/pages/2_forecast.py, lines 98-187). `main` loads the prepared
data, runs the ADF test inside try/except (an error leaves adf_p = None),
runs auto_arimax, builds the future exogenous row as the last observed
row indexed at the day after the last observed day, forecasts one step,
projects to non-negative integers, and renders the interpretation of
(p, d, q) against adf_p.

When zero candidates fit, auto_arimax returns its initial accumulator
(None, np.inf, None) and line 115
  (p, d, q), aic, res = auto_arimax(y, ex)
raises TypeError unpacking None into (p, d, q), as an uncaught
exception. The guard at lines 116-118
  if res is None: st.error("Nessun modello ARIMAX valido trovato."); st.stop()
is therefore dead code: whenever the unpacking succeeds, res is a fit
result, never None. `PipeResult` keeps that intended-but-unreachable
clean stop as its own constructor so unreachability can be stated.
`ex.iloc[-1]` on an empty exogenous frame (line 123) likewise raises.

The fitted model's one-step forecast is external (statsmodels); it is
modelled by an oracle `fc` from the selected order and the future
exogenous row to (predicted mean, conf bound 0, conf bound 1). The ADF
test is likewise external; its try/except outcome is the `Option ℚ`
p-value fed to the pipeline. -/

structure PipeInput where
  yIndex : List Nat
  exRows : List (ℚ × ℚ)
  deriving DecidableEq

/-- y.index.max(): maximum of the day index. -/
def last_day (idx : List Nat) : Nat := idx.foldl max 0

/-- ex_future = pd.DataFrame([ex.iloc[-1]], index=[last_day + timedelta(days=1)]).
`ex.iloc[-1]` on an empty frame raises, modelled by `none`. -/
def ex_future (inp : PipeInput) : Option (Nat × ℚ × ℚ) :=
  match inp.exRows.getLast? with
  | none => none
  | some row => some (last_day inp.yIndex + 1, row)

structure PipeOutput where
  order : Cand
  aic : ℚ
  exFuture : Nat × ℚ × ℚ
  point : ℤ
  lower : ℤ
  upper : ℤ
  interp : List InterpMsg
  deriving DecidableEq

/-- Outcome of one run of main's forecasting flow. `stopNoValidModel` is
the clean stop the lines 116-118 guard intends ("Nessun modello ARIMAX
valido trovato." + st.stop()); `raisesTypeError` is the uncaught
TypeError of line 115 unpacking None; `raisesIndexError` is the uncaught
IndexError of ex.iloc[-1] on an empty exogenous frame. -/
inductive PipeResult where
  | ok (out : PipeOutput)
  | stopNoValidModel
  | raisesTypeError
  | raisesIndexError
  deriving DecidableEq

def PipeResult.isOk : PipeResult → Bool
  | .ok _ => true
  | _ => false

/-- The model-selection and forecast components of a run's outcome:
(order, aic, future exogenous row, point, lower, upper); none when no
forecast was produced. -/
def pipeCore : PipeResult → Option (Cand × ℚ × (Nat × ℚ × ℚ) × ℤ × ℤ × ℤ)
  | .ok o => some (o.order, o.aic, o.exFuture, o.point, o.lower, o.upper)
  | _ => none

def runPipeline (inp : PipeInput) (fit : Cand → Option ℚ)
    (fc : Cand → Nat × ℚ × ℚ → ℚ × ℚ × ℚ) (adf_p : Option ℚ) :
    PipeResult :=
  match auto_arimax fit with
  | none => .raisesTypeError
  | some (pdq, aic) =>
    match ex_future inp with
    | none => .raisesIndexError
    | some exf =>
      let raw := fc pdq exf
      let ints := forecast_ints raw.1 raw.2.1 raw.2.2
      .ok ⟨pdq, aic, exf, ints.1, ints.2.1, ints.2.2,
           dynamic_pdq_interpretation pdq.1 pdq.2.1 pdq.2.2 adf_p⟩

lemma foldl_max_shift : ∀ (l : List ℕ) (a b : ℕ),
    l.foldl max (max a b) = max a (l.foldl max b) := by
  intro l
  induction l with
  | nil => intro a b; rfl
  | cons x l ih =>
    intro a b
    rw [List.foldl_cons, List.foldl_cons, max_assoc, ih]

lemma le_foldl_max : ∀ (l : List ℕ) (a : ℕ),
    a ≤ l.foldl max a ∧ ∀ x ∈ l, x ≤ l.foldl max a := by
  intro l
  induction l with
  | nil => intro a; exact ⟨le_rfl, by simp⟩
  | cons x l ih =>
    intro a
    rw [List.foldl_cons]
    obtain ⟨h1, h2⟩ := ih (max a x)
    refine ⟨le_trans (le_max_left a x) h1, ?_⟩
    intro y hy
    rcases List.mem_cons.mp hy with rfl | hy
    · exact le_trans (le_max_right a y) h1
    · exact h2 y hy

lemma foldl_max_sorted_getLast : ∀ (l : List ℕ) (h : l ≠ []),
    List.Chain' (· < ·) l → l.foldl max 0 = l.getLast h := by
  intro l
  induction l with
  | nil => intro h; exact absurd rfl h
  | cons x l ih =>
    intro h hc
    cases l with
    | nil => simp
    | cons y t =>
      have hxy : x < y := (List.chain'_cons.mp hc).1
      have hrec := ih (by simp) (List.chain'_cons.mp hc).2
      rw [List.foldl_cons, show max 0 x = max x 0 from max_comm 0 x,
        foldl_max_shift, hrec]
      have hy_le : y ≤ (y :: t).getLast (by simp) := by
        have hm := (le_foldl_max (y :: t) 0).2 y (by simp)
        rwa [hrec] at hm
      conv_rhs => rw [List.getLast_cons (List.cons_ne_nil y t)]
      exact max_eq_right (le_of_lt (lt_of_lt_of_le hxy hy_le))

/-! ## Claim theorems -/

/-- Claim C1: for every raw real-valued predicted mean and every pair of
raw interval bounds (negative values and zero-crossing intervals
included), the projected forecast (point, lower, upper) consists of
integers that are all ≥ 0 and satisfy lower ≤ upper. -/
theorem forecast_ints_nonneg_ordered (m conf0 conf1 : ℚ) :
    0 ≤ (forecast_ints m conf0 conf1).1 ∧
    0 ≤ (forecast_ints m conf0 conf1).2.1 ∧
    0 ≤ (forecast_ints m conf0 conf1).2.2 ∧
    (forecast_ints m conf0 conf1).2.1 ≤ (forecast_ints m conf0 conf1).2.2 := by
  unfold forecast_ints
  refine ⟨le_max_left 0 _, le_max_left 0 _, le_max_left 0 _, ?_⟩
  exact max_le_max le_rfl (pyRound_mono min_le_max)

/-- Claim C4: the projection stated by the spec (round each value to the
nearest integer, then clamp each at zero, then reorder the two projected
bounds as (min, max)) computes exactly the same triple as the code
(reorder the raw bounds as (min, max), then round, then clamp). -/
theorem spec_projection_equals_code (m conf0 conf1 : ℚ) :
    spec_round_clamp_reorder m conf0 conf1 = forecast_ints m conf0 conf1 := by
  unfold spec_round_clamp_reorder forecast_ints
  rcases le_total conf0 conf1 with h | h
  · have h2 : max 0 (pyRound conf0) ≤ max 0 (pyRound conf1) :=
      max_le_max le_rfl (pyRound_mono h)
    rw [min_eq_left h, max_eq_right h, min_eq_left h2, max_eq_right h2]
  · have h2 : max 0 (pyRound conf1) ≤ max 0 (pyRound conf0) :=
      max_le_max le_rfl (pyRound_mono h)
    rw [min_eq_right h, max_eq_left h, min_eq_right h2, max_eq_left h2]

/-- Claim C10: the projection's rounding resolves exact half-integers by
banker's rounding: k + 1/2 maps (before clamping) to k for even k and to
k + 1 for odd k; in particular 0.5 rounds to 0 and 1.5 rounds to 2, and
the full projection sends (0.5, 0.5, 1.5) to (0, 0, 2). -/
theorem pyRound_half_to_even (k : ℤ) :
    (Even k → pyRound ((k : ℚ) + 1/2) = k) ∧
    (Odd k → pyRound ((k : ℚ) + 1/2) = k + 1) ∧
    pyRound ((1 : ℚ)/2) = 0 ∧ pyRound ((3 : ℚ)/2) = 2 ∧
    forecast_ints (1/2) (1/2) (3/2) = (0, 0, 2) := by
  have hf : ⌊(k : ℚ) + 1/2⌋ = k := by
    rw [Int.floor_eq_iff]
    constructor
    · linarith
    · linarith
  have hhalf : pyRound ((k : ℚ) + 1/2) = if k % 2 = 0 then k else k + 1 := by
    rw [pyRound_eq_floor, hf]
    have h1 : (k : ℚ) + 1/2 - (k : ℤ) = 1/2 := by ring
    rw [h1]
    norm_num
  have e1 : pyRound ((1 : ℚ)/2) = 0 := by
    have hf1 : ⌊(1 : ℚ)/2⌋ = 0 := by norm_num
    rw [pyRound_eq_floor, hf1]
    norm_num
  have e2 : pyRound ((3 : ℚ)/2) = 2 := by
    have hf2 : ⌊(3 : ℚ)/2⌋ = 1 := by norm_num
    rw [pyRound_eq_floor, hf2]
    norm_num
  refine ⟨?_, ?_, e1, e2, ?_⟩
  · intro hk
    rw [hhalf, if_pos (Int.even_iff.mp hk)]
  · intro hk
    have h2 := Int.odd_iff.mp hk
    rw [hhalf, if_neg (by omega)]
  · have hm : min ((1 : ℚ)/2) (3/2) = 1/2 := min_eq_left (by norm_num)
    have hM : max ((1 : ℚ)/2) (3/2) = 3/2 := max_eq_right (by norm_num)
    unfold forecast_ints
    rw [hm, hM, e1, e2]
    decide

/-- Claim C10 witness at k = 2 (even) and k = 1 (odd). -/
theorem pyRound_half_to_even_witness :
    pyRound (((2 : ℤ) : ℚ) + 1/2) = 2 ∧ pyRound (((1 : ℤ) : ℚ) + 1/2) = 1 + 1 :=
  ⟨(pyRound_half_to_even 2).1 ⟨1, by norm_num⟩,
   (pyRound_half_to_even 1).2.1 ⟨0, by norm_num⟩⟩

/-- What auto_arimax guarantees about a returned candidate: membership in
the enumerated grid, a successful fit with the returned score, global
minimality of that score among successful fits, and the first-encountered
tie-break (every strictly earlier candidate in enumeration order that fit
successfully scored strictly worse). -/
def searchReturnSpec (fit : Cand → Option ℚ) (c : Cand) (a : ℚ) : Prop :=
  c ∈ candidates ∧ fit c = some a ∧
  (∀ c' ∈ candidates, ∀ a', fit c' = some a' → a ≤ a') ∧
  ∃ l₁ l₂, candidates = l₁ ++ c :: l₂ ∧
    ∀ c' ∈ l₁, ∀ a', fit c' = some a' → a < a'

/-- Claim C2: the order search enumerates exactly the 32-candidate grid
p ∈ {0..3} × d ∈ {0,1} × q ∈ {0..3} (p outer, d middle, q inner, each
ascending, without repetition), and any returned candidate lies in the
grid, has AIC ≤ every other successfully fit candidate, and ties break to
the first-encountered candidate in enumeration order. -/
theorem auto_arimax_grid_minimal_first (fit : Cand → Option ℚ) (c : Cand)
    (a : ℚ) (h : auto_arimax fit = some (c, a)) :
    (candidates =
      [(0, 0, 0), (0, 0, 1), (0, 0, 2), (0, 0, 3),
       (0, 1, 0), (0, 1, 1), (0, 1, 2), (0, 1, 3),
       (1, 0, 0), (1, 0, 1), (1, 0, 2), (1, 0, 3),
       (1, 1, 0), (1, 1, 1), (1, 1, 2), (1, 1, 3),
       (2, 0, 0), (2, 0, 1), (2, 0, 2), (2, 0, 3),
       (2, 1, 0), (2, 1, 1), (2, 1, 2), (2, 1, 3),
       (3, 0, 0), (3, 0, 1), (3, 0, 2), (3, 0, 3),
       (3, 1, 0), (3, 1, 1), (3, 1, 2), (3, 1, 3)] ∧
      candidates.length = 32 ∧ candidates.Nodup ∧
      (∀ c' : Cand, c' ∈ candidates ↔ c'.1 ≤ 3 ∧ c'.2.1 ≤ 1 ∧ c'.2.2 ≤ 3)) ∧
    searchReturnSpec fit c a := by
  have h' : candidates.foldl (stepBest fit) none = some (c, a) := h
  obtain ⟨hmin, hdisj⟩ := foldl_stepBest_spec fit candidates none c a h'
  rcases hdisj with hacc | ⟨hfit, l₁, l₂, hcs, _, hstrict⟩
  · exact absurd hacc (by simp)
  · refine ⟨⟨by decide, by decide, by decide, mem_candidates_iff⟩,
      ?_, hfit, hmin, l₁, l₂, hcs, hstrict⟩
    rw [hcs]
    exact List.mem_append_right _ (List.mem_cons_self _ _)

/-- A fit oracle with two successful candidates tied at score 7:
(1,0,2) precedes (2,1,3) in enumeration order. -/
def fitTie : Cand → Option ℚ := fun c =>
  if c = (1, 0, 2) then some 7 else if c = (2, 1, 3) then some 7 else none

/-- Claim C2 witness: on fitTie the search returns the first-encountered
of the two tied candidates, with all the guarantees instantiated. -/
theorem auto_arimax_grid_minimal_first_witness :
    searchReturnSpec fitTie (1, 0, 2) 7 :=
  (auto_arimax_grid_minimal_first fitTie (1, 0, 2) 7 (by decide)).2

/-- Claim C3: parts (i) and (ii) hold of the code: a candidate whose fit
raises is skipped (the search result equals the search with that
candidate filtered out of the grid), and the search returns its
distinguished failure value iff zero candidates fit successfully. Part
(iii) is where the code deviates from the claim: on total failure the
caller crashes — line 115 unpacks the returned None into (p, d, q) and
raises TypeError before the lines 116-118 guard, so the intended clean
"no valid model found" stop is unreachable on every input. -/
theorem auto_arimax_total_failure_crashes :
    (∀ (fit : Cand → Option ℚ) (c₀ : Cand), fit c₀ = none →
      auto_arimax fit = searchList fit (candidates.filter fun c => decide (c ≠ c₀))) ∧
    (∀ fit : Cand → Option ℚ,
      auto_arimax fit = none ↔ ∀ c ∈ candidates, fit c = none) ∧
    (∀ (inp : PipeInput) (fit : Cand → Option ℚ)
        (fc : Cand → Nat × ℚ × ℚ → ℚ × ℚ × ℚ) (adf_p : Option ℚ),
      auto_arimax fit = none →
        runPipeline inp fit fc adf_p = PipeResult.raisesTypeError) ∧
    (∀ (inp : PipeInput) (fit : Cand → Option ℚ)
        (fc : Cand → Nat × ℚ × ℚ → ℚ × ℚ × ℚ) (adf_p : Option ℚ),
      runPipeline inp fit fc adf_p ≠ PipeResult.stopNoValidModel) := by
  refine ⟨?_, ?_, ?_, ?_⟩
  · intro fit c₀ h
    exact (foldl_stepBest_filter_skip fit c₀ h candidates none).symm
  · intro fit
    rw [show auto_arimax fit = candidates.foldl (stepBest fit) none from rfl,
      foldl_stepBest_none_iff]
    simp
  · intro inp fit fc adf_p h
    unfold runPipeline
    rw [h]
  · intro inp fit fc adf_p
    unfold runPipeline
    cases auto_arimax fit with
    | none => exact fun h => PipeResult.noConfusion h
    | some pa =>
      obtain ⟨pdq, aic⟩ := pa
      cases ex_future inp with
      | none => exact fun h => PipeResult.noConfusion h
      | some exf => exact fun h => PipeResult.noConfusion h

/-- The all-failures fit oracle. -/
def fitFail : Cand → Option ℚ := fun _ => none

/-- Claim C3 witness / failing run: with every candidate's fit raising,
the search yields the failure value and the modelled main run ends in
the uncaught TypeError of line 115, while the clean stop is not
produced. -/
theorem auto_arimax_total_failure_crashes_witness :
    auto_arimax fitFail =
      searchList fitFail (candidates.filter fun c => decide (c ≠ (0, 0, 0))) ∧
    (auto_arimax fitFail = none ↔ ∀ c ∈ candidates, fitFail c = none) ∧
    runPipeline ⟨[0], [(20, 60)]⟩ fitFail (fun _ _ => (0, 0, 0)) none =
      PipeResult.raisesTypeError ∧
    runPipeline ⟨[0], [(20, 60)]⟩ fitFail (fun _ _ => (0, 0, 0)) none ≠
      PipeResult.stopNoValidModel :=
  ⟨auto_arimax_total_failure_crashes.1 fitFail (0, 0, 0) rfl,
   auto_arimax_total_failure_crashes.2.1 fitFail,
   auto_arimax_total_failure_crashes.2.2.1 ⟨[0], [(20, 60)]⟩ fitFail
     (fun _ _ => (0, 0, 0)) none (by decide),
   auto_arimax_total_failure_crashes.2.2.2 ⟨[0], [(20, 60)]⟩ fitFail
     (fun _ _ => (0, 0, 0)) none⟩

/-- Two fully parseable rows sharing the same date: non-empty after
dropna, yet set_index("Date").asfreq("D") raises on the duplicate index. -/
def dupRows : List RawRow :=
  [⟨some 0, some 20, some 60, some 1⟩, ⟨some 0, some 21, some 61, some 2⟩]

/-- Claim C5 counterexample: this input table is non-empty after dropping
unparseable rows, yet Series Preparation does not return a prepared
series/exogenous pair for it (pandas raises reindexing the duplicate
date index), refuting the claim's universal quantification. -/
theorem load_cicalino_duplicate_date_cex :
    cleanRows dupRows ≠ [] ∧ load_cicalino_data dupRows = none := by
  constructor <;> decide

/-- Claim C5 (amended): for every input table whose surviving rows carry
pairwise-distinct dates, Series Preparation returns a result, and every
returned result has a strictly increasing, gap-free daily index shared by
the three columns (equal lengths), with no missing value in any of the
three interpolated columns. -/
theorem load_cicalino_invariants :
    (∀ rows : List RawRow, ((cleanRows rows).map fun r => r.1).Nodup →
      (load_cicalino_data rows).isSome) ∧
    (∀ (rows : List RawRow) (prep : Prepared),
      load_cicalino_data rows = some prep →
      List.Chain' (fun a b => b = a + 1) prep.index ∧
      List.Chain' (· < ·) prep.index ∧
      (prep.captures.length = prep.index.length ∧
        prep.temperature.length = prep.index.length ∧
        prep.humidity.length = prep.index.length) ∧
      (∀ v ∈ prep.captures, v.isSome) ∧
      (∀ v ∈ prep.temperature, v.isSome) ∧
      (∀ v ∈ prep.humidity, v.isSome)) := by
  constructor
  · intro rows h
    unfold load_cicalino_data
    rw [if_pos h]
    cases cleanRows rows <;> simp
  · intro rows prep h
    unfold load_cicalino_data at h
    by_cases hnd : ((cleanRows rows).map fun r => r.1).Nodup
    · rw [if_pos hnd] at h
      cases hcl : cleanRows rows with
      | nil =>
        rw [hcl] at h
        simp only [Option.some.injEq] at h
        subst h
        refine ⟨by simp, by simp, by simp, ?_, ?_, ?_⟩ <;> simp
      | cons c cs =>
        rw [hcl] at h
        simp only [Option.some.injEq] at h
        subst h
        obtain ⟨h1, h2, h3⟩ := preparedOf_spec c cs
        exact ⟨h1, List.Chain'.imp (fun a b hab => by omega) h1, h2, h3⟩
    · rw [if_neg hnd] at h
      exact absurd h (by simp)

/-- Duplicate-free concrete table: days 0 and 2 with a one-day gap. -/
def rowsGap : List RawRow :=
  [⟨some 0, some 10, some 50, some 1⟩, ⟨some 2, some 12, some 52, some 3⟩]

/-- Duplicate-free concrete table on the adjacent days 0 and 1. -/
def rowsAdj : List RawRow :=
  [⟨some 0, some 10, some 50, some 1⟩, ⟨some 1, some 12, some 52, some 3⟩]

/-- Claim C5 witness: the amended theorem instantiated on concrete tables
(rowsGap has a missing calendar day; rowsAdj is instantiated through the
invariant part). -/
theorem load_cicalino_invariants_witness :
    (load_cicalino_data rowsGap).isSome ∧
    (List.Chain' (fun a b => b = a + 1)
        (preparedOf (0, 10, 50, 1) [(1, 12, 52, 3)]).index ∧
      ∀ v ∈ (preparedOf (0, 10, 50, 1) [(1, 12, 52, 3)]).captures, v.isSome) := by
  refine ⟨load_cicalino_invariants.1 rowsGap (by decide), ?_, ?_⟩
  · exact (load_cicalino_invariants.2 rowsAdj
      (preparedOf (0, 10, 50, 1) [(1, 12, 52, 3)]) (by decide)).1
  · exact (load_cicalino_invariants.2 rowsAdj
      (preparedOf (0, 10, 50, 1) [(1, 12, 52, 3)]) (by decide)).2.2.2.1

/-- Claim C6 counterexample: with d = 0 and an unavailable ADF p-value the
code emits the generic stability message, not the claimed
handled-by-AR/MA-or-exogenous message. -/
theorem pdq_interpretation_unavailable_cex :
    dynamic_pdq_interpretation 0 0 0 none =
      [.dGenericStability 0, .pLimitedPast, .qUnstructuredNoise] ∧
    InterpMsg.dHandledByArmaExog ∉ dynamic_pdq_interpretation 0 0 0 none := by
  constructor <;> decide

/-- Claim C6 (amended): the d-message obeys: d = 0 with available p-value
< 0.05 → already stationary; d = 0 with available p-value ≥ 0.05 →
handled by AR/MA or exogenous terms; d ≥ 1 with available p-value ≥ 0.05
→ differencing addresses non-stationarity; d ≥ 1 with available p-value
< 0.05 → model prefers differencing despite the stationarity signal; and
with the p-value unavailable (any d) → the generic stability message. -/
theorem pdq_interpretation_d_cases (p d q : Nat) (ap : ℚ) :
    (d = 0 → ap < 1/20 →
      (dynamic_pdq_interpretation p d q (some ap)).head? =
        some .dAlreadyStationary) ∧
    (d = 0 → 1/20 ≤ ap →
      (dynamic_pdq_interpretation p d q (some ap)).head? =
        some .dHandledByArmaExog) ∧
    (1 ≤ d → 1/20 ≤ ap →
      (dynamic_pdq_interpretation p d q (some ap)).head? =
        some (.dDifferencingApplied d)) ∧
    (1 ≤ d → ap < 1/20 →
      (dynamic_pdq_interpretation p d q (some ap)).head? =
        some (.dPrefersDifferencing d)) ∧
    (dynamic_pdq_interpretation p d q none).head? =
      some (.dGenericStability d) := by
  refine ⟨?_, ?_, ?_, ?_, rfl⟩
  · rintro rfl hlt
    rw [one_div] at hlt
    simp [dynamic_pdq_interpretation, hlt]
  · rintro rfl hge
    rw [one_div] at hge
    simp [dynamic_pdq_interpretation, not_lt.mpr hge]
  · intro hd hge
    have h0 : ¬ d = 0 := by omega
    rw [one_div] at hge
    simp [dynamic_pdq_interpretation, h0, hge]
  · intro hd hlt
    have h0 : ¬ d = 0 := by omega
    have h2 : ¬ (1/20 : ℚ) ≤ ap := not_le.mpr hlt
    rw [one_div] at h2
    simp [dynamic_pdq_interpretation, h0, h2]

/-- Claim C6 witness: the amended cases instantiated at concrete orders
and p-values. -/
theorem pdq_interpretation_d_cases_witness :
    (dynamic_pdq_interpretation 2 0 1 (some (1/100))).head? =
      some InterpMsg.dAlreadyStationary ∧
    (dynamic_pdq_interpretation 2 1 1 (some (1/10))).head? =
      some (InterpMsg.dDifferencingApplied 1) :=
  ⟨(pdq_interpretation_d_cases 2 0 1 (1/100)).1 rfl (by norm_num),
   (pdq_interpretation_d_cases 2 1 1 (1/10)).2.2.1 (by norm_num) (by norm_num)⟩

/-- Claim C7: with σ absent (None or NaN) or zero, the notes are exactly
the low-natural-variability message (no ratio bucket message); otherwise
exactly one bucket is chosen by ratio = RMSE/σ, with ratio < 0.5 giving
contained, 0.5 ≤ ratio < 1 giving in-line, ratio ≥ 1 giving exceeds, so
the boundaries 0.5 and 1 deterministically select the second and third
bucket. -/
theorem fidelity_notes_buckets (rmse : ℚ) (_hr : 0 ≤ rmse) (y_std : Option ℚ) :
    (y_std = none → gentle_fidelity_notes rmse y_std = [.lowVariability]) ∧
    (y_std = some 0 → gentle_fidelity_notes rmse y_std = [.lowVariability]) ∧
    (∀ s : ℚ, y_std = some s → s ≠ 0 → rmse / s < 1/2 →
      gentle_fidelity_notes rmse y_std = [.contained, .suggestion]) ∧
    (∀ s : ℚ, y_std = some s → s ≠ 0 → 1/2 ≤ rmse / s → rmse / s < 1 →
      gentle_fidelity_notes rmse y_std = [.inLine, .suggestion]) ∧
    (∀ s : ℚ, y_std = some s → s ≠ 0 → 1 ≤ rmse / s →
      gentle_fidelity_notes rmse y_std = [.exceeds, .suggestion]) ∧
    (∀ s : ℚ, y_std = some s → s ≠ 0 → rmse / s = 1/2 →
      gentle_fidelity_notes rmse y_std = [.inLine, .suggestion]) ∧
    (∀ s : ℚ, y_std = some s → s ≠ 0 → rmse / s = 1 →
      gentle_fidelity_notes rmse y_std = [.exceeds, .suggestion]) ∧
    (y_std = none ∨ y_std = some 0 →
      FidelityMsg.contained ∉ gentle_fidelity_notes rmse y_std ∧
      FidelityMsg.inLine ∉ gentle_fidelity_notes rmse y_std ∧
      FidelityMsg.exceeds ∉ gentle_fidelity_notes rmse y_std) := by
  refine ⟨?_, ?_, ?_, ?_, ?_, ?_, ?_, ?_⟩
  · rintro rfl; rfl
  · rintro rfl; simp [gentle_fidelity_notes]
  · rintro s rfl hs hlt
    rw [one_div] at hlt
    simp [gentle_fidelity_notes, hs, hlt]
  · rintro s rfl hs hge hlt
    rw [one_div] at hge
    simp [gentle_fidelity_notes, hs, not_lt.mpr hge, hlt]
  · rintro s rfl hs hge
    have h12 : ¬ rmse / s < (2 : ℚ)⁻¹ :=
      not_lt.mpr (le_trans (by norm_num : (2 : ℚ)⁻¹ ≤ 1) hge)
    simp [gentle_fidelity_notes, hs, not_lt.mpr hge, h12]
  · rintro s rfl hs heq
    simp [gentle_fidelity_notes, hs, heq]
    norm_num
  · rintro s rfl hs heq
    simp [gentle_fidelity_notes, hs, heq]
    norm_num
  · rintro (rfl | rfl)
    · simp [gentle_fidelity_notes]
    · simp [gentle_fidelity_notes]

/-- Claim C7 witness: boundary ratios 1/2 and 1 on concrete inputs. -/
theorem fidelity_notes_buckets_witness :
    gentle_fidelity_notes 1 (some 2) = [.inLine, .suggestion] ∧
    gentle_fidelity_notes 2 (some 2) = [.exceeds, .suggestion] :=
  ⟨(fidelity_notes_buckets 1 (by norm_num) (some 2)).2.2.2.2.2.1 2 rfl
      (by norm_num) (by norm_num),
   (fidelity_notes_buckets 2 (by norm_num) (some 2)).2.2.2.2.2.2.1 2 rfl
      (by norm_num) (by norm_num)⟩

/-- Claim C8: an ADF failure (p-value absent) is non-fatal: the pipeline
succeeds exactly when it would with any available p-value, the selected
order, AIC, future exogenous row and projected forecast are identical
either way, and the absent p-value only selects interpretation text. -/
theorem adf_unavailable_nonfatal (inp : PipeInput) (fit : Cand → Option ℚ)
    (fc : Cand → Nat × ℚ × ℚ → ℚ × ℚ × ℚ) (ap : ℚ) :
    ((runPipeline inp fit fc none).isOk =
      (runPipeline inp fit fc (some ap)).isOk) ∧
    (pipeCore (runPipeline inp fit fc none) =
      pipeCore (runPipeline inp fit fc (some ap))) ∧
    (∀ out, runPipeline inp fit fc none = PipeResult.ok out →
      out.interp =
        dynamic_pdq_interpretation out.order.1 out.order.2.1 out.order.2.2 none) ∧
    ((runPipeline inp fit fc none).isOk = false →
      runPipeline inp fit fc none = runPipeline inp fit fc (some ap)) := by
  unfold runPipeline
  cases auto_arimax fit with
  | none =>
    exact ⟨rfl, rfl, fun out hout => PipeResult.noConfusion hout, fun _ => rfl⟩
  | some pa =>
    obtain ⟨pdq, aic⟩ := pa
    cases ex_future inp with
    | none =>
      exact ⟨rfl, rfl, fun out hout => PipeResult.noConfusion hout, fun _ => rfl⟩
    | some exf =>
      refine ⟨rfl, rfl, ?_, ?_⟩
      · intro out hout
        simp only [PipeResult.ok.injEq] at hout
        subst hout
        rfl
      · intro hfalse
        exact absurd hfalse (by simp [PipeResult.isOk])

/-- Claim C8 witness: instantiated on a concrete input where the search
succeeds; with the p-value unavailable the pipeline still produces its
output and its interpretation takes the unavailable branch. -/
theorem adf_unavailable_nonfatal_witness :
    ((runPipeline ⟨[0], [(20, 60)]⟩ fitTie (fun _ _ => (0, 0, 0)) none).isOk =
      (runPipeline ⟨[0], [(20, 60)]⟩ fitTie (fun _ _ => (0, 0, 0))
        (some (3/10))).isOk) ∧
    (pipeCore (runPipeline ⟨[0], [(20, 60)]⟩ fitTie (fun _ _ => (0, 0, 0)) none) =
      pipeCore (runPipeline ⟨[0], [(20, 60)]⟩ fitTie (fun _ _ => (0, 0, 0))
        (some (3/10)))) ∧
    (∀ out, runPipeline ⟨[0], [(20, 60)]⟩ fitTie (fun _ _ => (0, 0, 0)) none =
        PipeResult.ok out →
      out.interp =
        dynamic_pdq_interpretation out.order.1 out.order.2.1 out.order.2.2 none) ∧
    ((runPipeline ⟨[0], [(20, 60)]⟩ fitTie (fun _ _ => (0, 0, 0)) none).isOk =
        false →
      runPipeline ⟨[0], [(20, 60)]⟩ fitTie (fun _ _ => (0, 0, 0)) none =
        runPipeline ⟨[0], [(20, 60)]⟩ fitTie (fun _ _ => (0, 0, 0))
          (some (3/10))) :=
  adf_unavailable_nonfatal ⟨[0], [(20, 60)]⟩ fitTie (fun _ _ => (0, 0, 0)) (3/10)

/-- Claim C9: whenever the pipeline produces an output and the day index
is strictly increasing, the future exogenous row used for the one-step
forecast is exactly the last observed exogenous row, indexed at the day
immediately after the most recent observed day. -/
theorem ex_future_persistence (inp : PipeInput) (fit : Cand → Option ℚ)
    (fc : Cand → Nat × ℚ × ℚ → ℚ × ℚ × ℚ) (adf_p : Option ℚ)
    (out : PipeOutput) (hsorted : List.Chain' (· < ·) inp.yIndex)
    (hne : inp.yIndex ≠ [])
    (hrun : runPipeline inp fit fc adf_p = PipeResult.ok out) :
    out.exFuture.1 = inp.yIndex.getLast hne + 1 ∧
    inp.exRows.getLast? = some out.exFuture.2 := by
  have hexf : ex_future inp = some out.exFuture := by
    unfold runPipeline at hrun
    rcases hfit : auto_arimax fit with _ | ⟨pdq, aic⟩
    · rw [hfit] at hrun
      exact PipeResult.noConfusion hrun
    · rw [hfit] at hrun
      rcases hef : ex_future inp with _ | exf
      · rw [hef] at hrun
        exact PipeResult.noConfusion hrun
      · rw [hef] at hrun
        simp only [PipeResult.ok.injEq] at hrun
        rw [← hrun]
  unfold ex_future at hexf
  rcases hlast : inp.exRows.getLast? with _ | row
  · rw [hlast] at hexf
    exact absurd hexf (by simp)
  · rw [hlast] at hexf
    simp only [Option.some.injEq] at hexf
    have h1 : out.exFuture.1 = last_day inp.yIndex + 1 := by rw [← hexf]
    have h2 : out.exFuture.2 = row := by rw [← hexf]
    constructor
    · rw [h1]
      unfold last_day
      rw [foldl_max_sorted_getLast inp.yIndex hne hsorted]
    · rw [h2]

def inpPersist : PipeInput := ⟨[3, 5], [(20, 60), (21, 61)]⟩

def outPersist : PipeOutput :=
  ⟨(1, 0, 2), 7, (6, 21, 61), 0, 0, 0, dynamic_pdq_interpretation 1 0 2 none⟩

lemma runPipeline_inpPersist :
    runPipeline inpPersist fitTie (fun _ _ => (0, 0, 0)) none =
      PipeResult.ok outPersist := by
  have hauto : auto_arimax fitTie = some ((1, 0, 2), 7) := by decide
  have hexf : ex_future inpPersist = some (6, 21, 61) := by decide
  have e0 : pyRound 0 = 0 := by
    rw [pyRound_eq_floor]
    norm_num
  have hints : forecast_ints 0 0 0 = (0, 0, 0) := by
    unfold forecast_ints
    rw [min_self, max_self, e0]
    decide
  simp only [runPipeline, hauto, hexf, hints]
  rfl

/-- Claim C9 witness: a concrete pipeline run on days [3, 5]; the future
exogenous row is the last observed row (21, 61) at day 6 = 5 + 1. -/
theorem ex_future_persistence_witness :
    outPersist.exFuture.1 =
      (inpPersist.yIndex.getLast (by decide)) + 1 ∧
    inpPersist.exRows.getLast? = some outPersist.exFuture.2 :=
  ex_future_persistence inpPersist fitTie (fun _ _ => (0, 0, 0)) none outPersist
    (by simp [inpPersist, List.chain'_pair]) (by decide) runPipeline_inpPersist

end ParasiteForecast
